import Mathlib

/-!
Verification development for the wishlist-reconciliation core of the
BackLoggdSteamPlugin repository.

Strings are modelled as `List Char` over the ASCII fragment (JS
`String.prototype.normalize("NFC")` is the identity there, and
`toLowerCase` is ASCII lowercasing).  JS regular-expression word
boundaries (`\b`) are modelled by tracking whether the previous
character is a word character while scanning left to right, exactly as
the regex engine does for the patterns used by the source (all of which
begin and end with word characters).  The fuzzy-match threshold, a JS
number in the source, is modelled as a rational number.
-/

namespace BLSP

abbrev Str := List Char

/-- Word characters of the JS regex class `\w` (`[A-Za-z0-9_]`). -/
def isWordChar (c : Char) : Bool :=
  ('a' ≤ c && c ≤ 'z') || ('A' ≤ c && c ≤ 'Z') || ('0' ≤ c && c ≤ '9') || c = '_'

/-- Characters kept by the source's `replace(/[^a-z0-9 ]/g, '')` step. -/
def isKeptChar (c : Char) : Bool :=
  ('a' ≤ c && c ≤ 'z') || ('0' ≤ c && c ≤ '9') || c = ' '

/-- ASCII lowercasing, the fragment of JS `toLowerCase` relevant here. -/
def asciiLower (c : Char) : Char :=
  if 'A' ≤ c && c ≤ 'Z' then Char.ofNat (c.toNat + 32) else c

def lowerStr (s : Str) : Str := s.map asciiLower

/-- Is there a `\b` boundary between a word character and the front of `s`? -/
def boundaryAfter (s : Str) : Bool :=
  match s with
  | [] => true
  | c :: _ => !isWordChar c

/-- Does `/\bpat\b/` match at the current position, given whether the
previous character was a word character?  (All patterns used begin and
end with word characters, so the leading boundary is `!prevW`.) -/
def matchAt (pat : Str) (prevW : Bool) (s : Str) : Bool :=
  !prevW && pat.isPrefixOf s && boundaryAfter (s.drop pat.length)

/-- Fuel-indexed scanner for `String.prototype.replace(/\bpat\b/g, rep)`:
matches are located in the original string, scanning left to right
without overlap.  The fuel is the length of the scanned string. -/
def replTokAux (pat rep : Str) : Nat → Bool → Str → Str
  | 0, _, s => s
  | _ + 1, _, [] => []
  | fuel + 1, prevW, c :: cs =>
    if matchAt pat prevW (c :: cs) then
      rep ++ replTokAux pat rep fuel true ((c :: cs).drop pat.length)
    else
      c :: replTokAux pat rep fuel (isWordChar c) cs

/-- JS `s.replace(/\bpat\b/g, rep)` for patterns that begin and end with
word characters. -/
def replTok (pat rep s : Str) : Str := replTokAux pat rep s.length false s

/-- Scanner deciding whether `/\bpat\b/` matches anywhere in the string;
its recursion mirrors `replTokAux`. -/
def hasTokAux (pat : Str) : Nat → Bool → Str → Bool
  | 0, _, _ => false
  | _ + 1, _, [] => false
  | fuel + 1, prevW, c :: cs =>
    if matchAt pat prevW (c :: cs) then true
    else hasTokAux pat fuel (isWordChar c) cs

def hasTok (pat s : Str) : Bool := hasTokAux pat s.length false s

/-- Condition of the source's `replace(/^number\b/, '#')` step. -/
def startsWithNumberTok (s : Str) : Bool :=
  "number".toList.isPrefixOf s && boundaryAfter (s.drop 6)

/-- JS `s.replace(/^number\b/, '#')`. -/
def numberHash (s : Str) : Str :=
  if startsWithNumberTok s then '#' :: s.drop 6 else s

/-- The characters stripped by JS `String.prototype.trim`: space, tab,
line feed, carriage return, vertical tab, form feed, no-break space and
the zero-width no-break space. -/
def isJsWhitespace (c : Char) : Bool :=
  c = ' ' || c = '\t' || c = '\n' || c = '\r' ||
    c.toNat = 11 || c.toNat = 12 || c.toNat = 160 || c.toNat = 65279

def trimL (s : Str) : Str := s.dropWhile isJsWhitespace

/-- JS `String.prototype.trim`: drop JS whitespace from both ends. -/
def trimStr (s : Str) : Str := ((trimL s).reverse.dropWhile isJsWhitespace).reverse

/-- Unicode canonical composition; the identity on the ASCII fragment
modelled here. -/
def nfc (s : Str) : Str := s

def patAnd : Str := "and".toList
def patVi : Str := "vi".toList
def patOnline : Str := "online".toList
def patEdition : Str := "edition".toList
def patRemastered : Str := "remastered".toList
def patDefinitive : Str := "definitive".toList
def patGoty : Str := "game of the year".toList

/-- `GameName.normalize` from `src/domain/entities/Game.ts`: lowercase,
NFC, `^number\b → #`, strip `[^a-z0-9 ]`, `\band\b → &`, `\bvi\b → 6`,
remove the filler tokens and the phrase `game of the year`, trim. -/
def normalize (s : Str) : Str :=
  trimStr
    (replTok patGoty []
      (replTok patDefinitive []
        (replTok patRemastered []
          (replTok patEdition []
            (replTok patOnline []
              (replTok patVi ['6']
                (replTok patAnd ['&']
                  ((numberHash (nfc (lowerStr s))).filter isKeptChar))))))))

/-- Unit-cost Levenshtein distance, the function computed by the
`fast-levenshtein` package used by `GameName.isSimilarTo`. -/
def levDistance (a b : Str) : ℕ := levenshtein Levenshtein.defaultCost a b

/-- `GameName.isSimilarTo` from `src/domain/entities/Game.ts`:
`distance <= maxLength * threshold` on the normalized names.  The
rational inequality `d ≤ maxLen * t` is decided by cross-multiplying
with the positive denominator of `t`, which is equivalent (proved in
`isSimilarTo_iff_levDistance_le`) and lets concrete runs evaluate. -/
def isSimilarTo (a b : Str) (t : ℚ) : Bool :=
  decide ((levDistance (normalize a) (normalize b) : ℤ) * (t.den : ℤ) ≤
    t.num * (max (normalize a).length (normalize b).length : ℤ))

/-- The `Game` entity (`appId`, `name`); the optional `platformIds` and
`metadata` records are not touched by any claim and are omitted. -/
structure Game where
  appId : Nat
  name : Str
deriving DecidableEq

namespace GameFactory

/-- `GameFactory.createFromBackloggd`: `appId: steamAppId || 0` (JS `||`
yields `0` both for an absent and for a zero `steamAppId`). -/
def createFromBackloggd (name : Str) (steamAppId : Option Nat) : Game :=
  { appId := match steamAppId with
             | some k => k
             | none => 0,
    name := name }

def create (appId : Nat) (name : Str) : Game :=
  { appId := appId, name := name }

end GameFactory

/-- `WishlistCollection` from the domain layer: an immutable list of
games tagged with a platform label and a user id. -/
structure WishlistCollection where
  games : List Game
  platform : Str
  userId : Str
deriving DecidableEq

namespace WishlistCollection

/-- `contains`: `this.games.some(g => g.appId === game.appId)`. -/
def contains (c : WishlistCollection) (g : Game) : Bool :=
  c.games.any (fun h => decide (h.appId = g.appId))

/-- `containsAppId`. -/
def containsAppId (c : WishlistCollection) (k : Nat) : Bool :=
  c.games.any (fun h => decide (h.appId = k))

/-- `findByAppId`: `this.games.find(g => g.appId === appId)`, returning
an explicit missing value instead of raising. -/
def findByAppId (c : WishlistCollection) (k : Nat) : Option Game :=
  c.games.find? (fun h => decide (h.appId = k))

/-- `add`: returns the collection itself when a game with the same
`appId` is already present, otherwise a new collection with the game
appended. -/
def add (c : WishlistCollection) (g : Game) : WishlistCollection :=
  if c.contains g then c
  else { games := c.games ++ [g], platform := c.platform, userId := c.userId }

/-- `filter`. -/
def filter (c : WishlistCollection) (p : Game → Bool) : WishlistCollection :=
  { games := c.games.filter p, platform := c.platform, userId := c.userId }

end WishlistCollection

/-- JS `Map.prototype.set` on an association list: replace the value at
an existing key in place, otherwise append the new binding. -/
def jsMapInsert {K V : Type} [DecidableEq K] (m : List (K × V)) (k : K) (v : V) :
    List (K × V) :=
  if m.any (fun p => decide (p.1 = k)) then
    m.map (fun p => if p.1 = k then (k, v) else p)
  else m ++ [(k, v)]

/-- Builds a JS `Map` keyed by `keyf` from a list, later entries
overwriting earlier ones (`new Map(l.map(v => [keyf v, v]))`). -/
def jsMapOfList {K V : Type} [DecidableEq K] (keyf : V → K) (l : List V) :
    List (K × V) :=
  l.foldl (fun m v => jsMapInsert m (keyf v) v) []

/-- One list of `WishlistComparison.removeDuplicates`:
`Array.from(new Map(list.map(g => [g.appId, g])).values())`. -/
def dedupByAppId (gs : List Game) : List Game :=
  (jsMapOfList (fun g => g.appId) gs).map (fun p => p.2)

/-- The last element of `l` whose key is `k` — the value a JS `Map`
built from `l` ends up holding at `k`. -/
def lastWith {K V : Type} [DecidableEq K] (keyf : V → K) (l : List V) (k : K) :
    Option V :=
  l.reverse.find? (fun v => decide (keyf v = k))

/-- The `WishlistComparison` value object from
`src/domain/entities/ComparisonResult.ts`. -/
structure WishlistComparison where
  inBoth : List Game
  onlyInFirst : List Game
  onlyInSecond : List Game
  firstPlatform : Str
  secondPlatform : Str
deriving DecidableEq

namespace WishlistComparison

def totalUniqueGames (w : WishlistComparison) : Nat :=
  w.inBoth.length + w.onlyInFirst.length + w.onlyInSecond.length

def matchCount (w : WishlistComparison) : Nat := w.inBoth.length

/-- `matchPercentage`: `0` when `totalUniqueGames` is `0`, otherwise
`matchCount / totalUniqueGames * 100`. -/
def matchPercentage (w : WishlistComparison) : ℚ :=
  if w.totalUniqueGames = 0 then 0
  else (w.matchCount : ℚ) / (w.totalUniqueGames : ℚ) * 100

/-- `removeDuplicates`: re-keys each of the three lists by `appId`
through a JS `Map`. -/
def removeDuplicates (w : WishlistComparison) : WishlistComparison :=
  { inBoth := dedupByAppId w.inBoth,
    onlyInFirst := dedupByAppId w.onlyInFirst,
    onlyInSecond := dedupByAppId w.onlyInSecond,
    firstPlatform := w.firstPlatform,
    secondPlatform := w.secondPlatform }

end WishlistComparison

/-- Inner loop of `CompareWishlistsUseCase.compareWishlists`: the first
game of `second` similar to `g` (no consumed-set check is performed by
the source). -/
def findSimilar (t : ℚ) (second : List Game) (g : Game) : Option Game :=
  second.find? (fun h => isSimilarTo g.name h.name t)

/-- State of the outer loop of `compareWishlists`. -/
structure CmpAcc where
  inBoth : List Game
  onlyInFirst : List Game
  matched : List Str

/-- JS `Set.prototype.add` on a membership list. -/
def addName (n : Str) (ns : List Str) : List Str :=
  if n ∈ ns then ns else ns ++ [n]

/-- One iteration of the outer loop of `compareWishlists`. -/
def cmpStep (t : ℚ) (second : List Game) (acc : CmpAcc) (g : Game) : CmpAcc :=
  match findSimilar t second g with
  | some h =>
    { inBoth := acc.inBoth ++ [g],
      onlyInFirst := acc.onlyInFirst,
      matched := addName (normalize h.name) acc.matched }
  | none =>
    { inBoth := acc.inBoth,
      onlyInFirst := acc.onlyInFirst ++ [g],
      matched := acc.matched }

/-- `CompareWishlistsUseCase.compareWishlists`: greedy first-match scan
of `first` against `second`, recording the normalized names of matched
second-side games; `onlyInSecond` keeps the second-side games whose
normalized name was never recorded. -/
def compareWishlists (first second : List Game) (t : ℚ) :
    List Game × List Game × List Game :=
  let acc := first.foldl (cmpStep t second) ⟨[], [], []⟩
  ⟨acc.inBoth, acc.onlyInFirst,
    second.filter (fun h => decide (normalize h.name ∉ acc.matched))⟩

/-- Keep-first deduplication by normalized name, the use case's private
`removeDuplicates` (`if (!uniqueGames.has(key)) uniqueGames.set(key, game)`). -/
def removeDupByName (seen : List Str) : List Game → List Game
  | [] => []
  | g :: gs =>
    if normalize g.name ∈ seen then removeDupByName seen gs
    else g :: removeDupByName (seen ++ [normalize g.name]) gs

/-- `CompareWishlistsUseCase.filterExcluded`: returns the collection
unchanged when both exclusion inputs are empty, otherwise drops games
with a positive excluded `appId` or an excluded normalized name. -/
def filterExcluded (w : WishlistCollection) (exIds : List Nat) (exNames : List Str) :
    WishlistCollection :=
  if exIds = [] ∧ exNames = [] then w
  else
    let ns := exNames.map normalize
    w.filter (fun g =>
      if 0 < g.appId ∧ g.appId ∈ exIds then false
      else if normalize g.name ∈ ns then false
      else true)

/-- `CompareWishlistsUseCase.execute` restricted to the comparison it
produces: filter exclusions on each side, compare, deduplicate each
list by normalized name, wrap with the two platform labels. -/
def execute (defaultT : ℚ) (first second : WishlistCollection)
    (exIds : List Nat) (exNames : List Str) (tOpt : Option ℚ) : WishlistComparison :=
  let t := match tOpt with
           | some t => t
           | none => defaultT
  let f1 := filterExcluded first exIds exNames
  let f2 := filterExcluded second exIds exNames
  let r := compareWishlists f1.games f2.games t
  { inBoth := removeDupByName [] r.1,
    onlyInFirst := removeDupByName [] r.2.1,
    onlyInSecond := removeDupByName [] r.2.2,
    firstPlatform := first.platform,
    secondPlatform := second.platform }

/-- The `ExcludedGame` entity; the `excludedAt` timestamp is not touched
by any claim and is omitted. -/
structure ExcludedGame where
  gameName : Str
  appId : Option Nat
  reason : Str
deriving DecidableEq

/-- JS truthiness of a nullable numeric id: `null`, `undefined` and `0`
all behave as absent. -/
def optTruthy (o : Option Nat) : Option Nat :=
  match o with
  | some 0 => none
  | x => x

/-- The key normalization of `ExcludedGameCollection.getKey`:
`gameName.toLowerCase().trim()` (not the `GameName` normalization). -/
def keyNorm (s : Str) : Str := trimStr (lowerStr s)

/-- `ExcludedGameCollection.getKey`: the lowercased trimmed name, with
`:appId` appended when the id is truthy. -/
def getKey (name : Str) (appId : Option Nat) : Str :=
  match appId with
  | some k => if k = 0 then keyNorm name else keyNorm name ++ ':' :: (Nat.repr k).toList
  | none => keyNorm name

/-- The `Map` built by the `ExcludedGameCollection` constructor. -/
def exMap (entries : List ExcludedGame) : List (Str × ExcludedGame) :=
  jsMapOfList (fun e => getKey e.gameName e.appId) entries

/-- `ExcludedGameCollection.isExcluded`: exact key, then name-only key,
then a scan on equal truthy ids. -/
def isExcluded (entries : List ExcludedGame) (name : Str) (appId : Option Nat) : Bool :=
  let m := exMap entries
  let a := optTruthy appId
  if m.any (fun p => decide (p.1 = getKey name a)) then true
  else if m.any (fun p => decide (p.1 = getKey name none)) then true
  else
    match a with
    | some k => m.any (fun p => decide (p.2.appId = some k))
    | none => false

/-- `ExcludedGameCollection.filterGames`. -/
def filterGames (entries : List ExcludedGame) (gs : List Game) : List Game :=
  gs.filter (fun g => !isExcluded entries g.name (some g.appId))

namespace ExcludedGameFactory

def emptyNameMsg : Str := "Game name cannot be empty".toList

/-- `ExcludedGameFactory.create`: throws when the name is empty or
whitespace-only, otherwise builds the trimmed entry. -/
def create (gameName : Str) (appId : Option Nat) (reason : Str) :
    Except Str ExcludedGame :=
  if trimStr gameName = [] then Except.error emptyNameMsg
  else Except.ok { gameName := trimStr gameName, appId := appId, reason := trimStr reason }

end ExcludedGameFactory

/-! Concrete fixtures used by witnesses and counterexamples. -/

/-- The rational `1/5`, the source's default threshold `0.2`. -/
def qFifth : ℚ := ⟨1, 5, by decide, by decide⟩

/-- The rational `1/20`, the strict threshold `0.05` of the tests. -/
def qTwentieth : ℚ := ⟨1, 20, by decide, by decide⟩

def strAbcde : Str := "abcde".toList
def strAbcdx : Str := "abcdx".toList
def strAandB : Str := "a and b".toList
def strHalo3 : Str := "halo 3".toList
def strSpace : Str := " ".toList
def strBangs : Str := "!!".toList
def strAaa : Str := "aaa".toList
def strBbb : Str := "bbb".toList
def strHalo : Str := "Halo".toList
def strHaloLower : Str := "halo".toList
def strHaloBang : Str := "Halo!".toList
def strSteam : Str := "steam".toList
def strBackloggd : Str := "backloggd".toList
def strU : Str := "u".toList

/-- A one-game collection whose game has `appId 1` and name `Halo`. -/
def wcHalo : WishlistCollection :=
  { games := [{ appId := 1, name := strHalo }], platform := strSteam, userId := strU }

/-- A game with a different `appId` but the same normalized name as the
game of `wcHalo`. -/
def gHalo2 : Game := { appId := 2, name := strHaloLower }

/-- A one-game collection whose game has `appId 0`. -/
def wcZero : WishlistCollection :=
  { games := [{ appId := 0, name := strAaa }], platform := strSteam, userId := strU }

/-- First side of the comparator counterexample run. -/
def cxFirst : List Game := [{ appId := 1, name := strAbcde }]

/-- Second side of the comparator counterexample run: a fuzzy near-match
of `abcde` followed by an exact duplicate of it. -/
def cxSecond : List Game :=
  [{ appId := 2, name := strAbcdx }, { appId := 3, name := strAbcde }]

/-- A comparison whose `inBoth` holds two games with distinct normalized
names but the same `appId 0`. -/
def wcDup : WishlistComparison :=
  { inBoth := [{ appId := 0, name := strAaa }, { appId := 0, name := strBbb }],
    onlyInFirst := [],
    onlyInSecond := [],
    firstPlatform := strSteam,
    secondPlatform := strBackloggd }

/-- An exclusion entry with a name and no id, whose name differs from
`Halo` by punctuation only. -/
def exHaloBang : ExcludedGame := { gameName := strHaloBang, appId := none, reason := [] }

/-- A game named `Halo` with id `7`. -/
def gHalo7 : Game := { appId := 7, name := strHalo }

end BLSP

namespace BLSP

set_option maxRecDepth 40000

/-! Helper lemmas about the distance function. -/

theorem levDistance_nil_left (b : Str) : levDistance [] b = b.length := by
  induction b with
  | nil => simp [levDistance]
  | cons y ys ih =>
    simp [levDistance, levenshtein_nil_cons] at ih ⊢
    omega

theorem levDistance_nil_right (b : Str) : levDistance b [] = b.length := by
  induction b with
  | nil => simp [levDistance]
  | cons y ys ih =>
    simp [levDistance, levenshtein_cons_nil] at ih ⊢
    omega

theorem levDistance_cons_cons (x : Char) (xs : Str) (y : Char) (ys : Str) :
    levDistance (x :: xs) (y :: ys) =
      min (1 + levDistance xs (y :: ys))
        (min (1 + levDistance (x :: xs) ys)
          ((if x = y then 0 else 1) + levDistance xs ys)) := by
  simp [levDistance, levenshtein_cons_cons, Levenshtein.defaultCost]

theorem levDistance_symm (a b : Str) : levDistance a b = levDistance b a := by
  induction a generalizing b with
  | nil => rw [levDistance_nil_left, levDistance_nil_right]
  | cons x xs ih =>
    induction b with
    | nil => rw [levDistance_nil_left, levDistance_nil_right]
    | cons y ys ihb =>
      rw [levDistance_cons_cons, levDistance_cons_cons, ih (y :: ys), ihb, ih ys]
      have hs : (if x = y then (0 : ℕ) else 1) = (if y = x then 0 else 1) := by
        by_cases h : x = y
        · simp [h]
        · rw [if_neg h, if_neg (fun hyx : y = x => h hyx.symm)]
      rw [hs, min_left_comm]

/-- C7: similarity is symmetric in its two name arguments, for every
threshold. -/
theorem isSimilarTo_symm (a b : Str) (t : ℚ) :
    isSimilarTo a b t = isSimilarTo b a t := by
  unfold isSimilarTo
  rw [levDistance_symm (normalize a) (normalize b),
    max_comm (((normalize a).length : ℤ)) (((normalize b).length : ℤ))]

/-- C3: `isSimilarTo a b t` holds exactly when the unit-cost Levenshtein
distance between the normalized names is at most the longer normalized
length times the threshold; in particular two names with empty
normalized forms are always similar. -/
theorem isSimilarTo_iff_levDistance_le (a b : Str) (t : ℚ) :
    (isSimilarTo a b t = true ↔
      (levDistance (normalize a) (normalize b) : ℚ) ≤
        (max (normalize a).length (normalize b).length : ℚ) * t) ∧
    (normalize a = [] → normalize b = [] → isSimilarTo a b t = true) := by
  have hden : (0 : ℚ) < (t.den : ℚ) := by
    exact_mod_cast t.den_pos
  constructor
  · unfold isSimilarTo
    rw [decide_eq_true_iff]
    have key : ((levDistance (normalize a) (normalize b) : ℤ) * (t.den : ℤ) ≤
          t.num * (max (normalize a).length (normalize b).length : ℤ)) ↔
        ((levDistance (normalize a) (normalize b) : ℚ) * (t.den : ℚ) ≤
          (t.num : ℚ) * (max (normalize a).length (normalize b).length : ℚ)) := by
      constructor
      · intro h
        exact_mod_cast h
      · intro h
        exact_mod_cast h
    have hmt : (max (normalize a).length (normalize b).length : ℚ) * t =
        (t.num : ℚ) * (max (normalize a).length (normalize b).length : ℚ) / (t.den : ℚ) := by
      rw [mul_comm (t.num : ℚ), mul_div_assoc, Rat.num_div_den, mul_comm]
    rw [key, hmt, le_div_iff₀ hden]
  · intro h1 h2
    unfold isSimilarTo
    rw [h1, h2]
    simp [levDistance]

/-- Witness for C3 at a pair of names with empty normalized forms. -/
theorem isSimilarTo_iff_levDistance_le_witness :
    isSimilarTo strSpace strBangs qFifth = true :=
  (isSimilarTo_iff_levDistance_le strSpace strBangs qFifth).2 (by decide) (by decide)

/-- C9: comparing two empty collections yields three empty lists and a
zero match percentage; in general the match percentage is
`matchCount / totalUniqueGames * 100` (rational division, so the
quotient is `0` when `totalUniqueGames = 0`). -/
theorem execute_empty_and_matchPercentage :
    (∀ (dT : ℚ) (p1 p2 u1 u2 : Str) (exIds : List Nat) (exNames : List Str)
      (tOpt : Option ℚ),
      (execute dT ⟨[], p1, u1⟩ ⟨[], p2, u2⟩ exIds exNames tOpt).inBoth = [] ∧
      (execute dT ⟨[], p1, u1⟩ ⟨[], p2, u2⟩ exIds exNames tOpt).onlyInFirst = [] ∧
      (execute dT ⟨[], p1, u1⟩ ⟨[], p2, u2⟩ exIds exNames tOpt).onlyInSecond = [] ∧
      (execute dT ⟨[], p1, u1⟩ ⟨[], p2, u2⟩ exIds exNames tOpt).matchPercentage = 0) ∧
    (∀ w : WishlistComparison,
      w.matchPercentage = (w.matchCount : ℚ) / (w.totalUniqueGames : ℚ) * 100) := by
  constructor
  · intro dT p1 p2 u1 u2 exIds exNames tOpt
    have h1 : (filterExcluded ⟨[], p1, u1⟩ exIds exNames).games = [] := by
      unfold filterExcluded
      split
      · rfl
      · rfl
    have h2 : (filterExcluded ⟨[], p2, u2⟩ exIds exNames).games = [] := by
      unfold filterExcluded
      split
      · rfl
      · rfl
    unfold execute
    simp only [h1, h2]
    refine ⟨rfl, rfl, rfl, ?_⟩
    simp [WishlistComparison.matchPercentage, WishlistComparison.totalUniqueGames,
      compareWishlists, removeDupByName]
  · intro w
    unfold WishlistComparison.matchPercentage
    split
    · rename_i h
      have hc : w.matchCount = 0 := by
        unfold WishlistComparison.matchCount
        unfold WishlistComparison.totalUniqueGames at h
        omega
      rw [hc, h]
      simp
    · rfl

/-- Counterexample to C6: `wcHalo` already holds a game whose normalized
name equals that of `gHalo2`, yet `add` is not a no-op — it appends,
because `contains` compares `appId`s only. -/
theorem add_same_normalized_name_appends :
    normalize strHalo = normalize strHaloLower ∧
    (wcHalo.add gHalo2).games.length = 2 := by decide

/-- C6 as amended: the identity used by `contains`/`add` is the numeric
`appId`; `add` returns the collection itself exactly when a game with
the same `appId` is present, and otherwise appends, leaving the
original unchanged. -/
theorem wishlistAdd_keyed_by_appId (c : WishlistCollection) (g : Game) :
    (c.contains g = true ↔ ∃ h ∈ c.games, h.appId = g.appId) ∧
    (c.contains g = true → c.add g = c) ∧
    (c.contains g = false →
      (c.add g).games = c.games ++ [g] ∧ (c.add g).platform = c.platform ∧
        (c.add g).userId = c.userId) := by
  refine ⟨?_, ?_, ?_⟩
  · simp [WishlistCollection.contains, List.any_eq_true]
  · intro h
    unfold WishlistCollection.add
    rw [if_pos h]
  · intro h
    unfold WishlistCollection.add
    rw [if_neg (by simp [h])]
    exact ⟨rfl, rfl, rfl⟩

/-- Witness for the amended C6: adding a game whose `appId` is already
present returns the same collection. -/
theorem wishlistAdd_keyed_by_appId_witness :
    wcHalo.add { appId := 1, name := strBbb } = wcHalo :=
  (wishlistAdd_keyed_by_appId wcHalo { appId := 1, name := strBbb }).2.1 (by decide)

/-- C10: `contains`/`add` key on the numeric `appId` alone — a game
with an already-present `appId` is dropped whatever its name; Backloggd
games without a Steam id are created with `appId 0`, so once an
`appId 0` game is in the collection every further `appId 0` game is
silently dropped by `add`. -/
theorem wishlist_identity_appId_only :
    (∀ (c : WishlistCollection) (g h : Game),
      h ∈ c.games → h.appId = g.appId → c.add g = c) ∧
    (∀ name : Str, (GameFactory.createFromBackloggd name none).appId = 0) ∧
    (∀ (c : WishlistCollection) (g : Game),
      (∃ h ∈ c.games, h.appId = 0) → g.appId = 0 → c.add g = c) := by
  have hadd : ∀ (c : WishlistCollection) (g h : Game),
      h ∈ c.games → h.appId = g.appId → c.add g = c := by
    intro c g h hm he
    unfold WishlistCollection.add
    rw [if_pos ?_]
    unfold WishlistCollection.contains
    rw [List.any_eq_true]
    exact ⟨h, hm, by simp [he]⟩
  refine ⟨hadd, fun _ => rfl, ?_⟩
  intro c g hz hg
  obtain ⟨h, hm, h0⟩ := hz
  exact hadd c g h hm (by rw [h0, hg])

/-- Witness for C10: a second `appId 0` game is dropped by `add`. -/
theorem wishlist_identity_appId_only_witness :
    wcZero.add { appId := 0, name := strBbb } = wcZero :=
  wishlist_identity_appId_only.2.2 wcZero { appId := 0, name := strBbb }
    ⟨{ appId := 0, name := strAaa }, by decide, rfl⟩ rfl

/-- Counterexample to C8: constructing an exclusion entry from an empty
name throws (`Game name cannot be empty`), so construction from
arbitrary data is not exception-free. -/
theorem create_empty_name_throws :
    ExcludedGameFactory.create [] none [] = Except.error ExcludedGameFactory.emptyNameMsg := by
  rfl

/-- C8 as amended: identity queries return an explicit missing value
instead of raising, and `ExcludedGameFactory.create` is the one guarded
construction — it fails exactly when the name trims to the empty
string, and succeeds otherwise. -/
theorem findByAppId_explicit_create_guarded :
    (∀ (c : WishlistCollection) (k : Nat),
      c.findByAppId k = none ↔ ∀ g ∈ c.games, g.appId ≠ k) ∧
    (∀ (name : Str) (o : Option Nat) (r : Str),
      (ExcludedGameFactory.create name o r).isOk = true ↔ trimStr name ≠ []) := by
  constructor
  · intro c k
    simp [WishlistCollection.findByAppId, List.find?_eq_none]
  · intro name o r
    unfold ExcludedGameFactory.create
    split
    · rename_i h
      simp [Except.isOk, Except.toBool, h]
    · rename_i h
      simp [Except.isOk, Except.toBool, h]

/-- Witness for the amended C8: a nonempty name constructs successfully,
and a missing id is reported as an explicit `none`. -/
theorem findByAppId_explicit_create_guarded_witness :
    (ExcludedGameFactory.create strHalo none []).isOk = true ∧
    wcHalo.findByAppId 9 = none :=
  ⟨(findByAppId_explicit_create_guarded.2 strHalo none []).mpr (by decide),
    (findByAppId_explicit_create_guarded.1 wcHalo 9).mpr (by decide)⟩

/-! Step-identity lemmas for the normalization pipeline, used to settle
the idempotence claim. -/

theorem replTokAux_eq_self (pat rep : Str) :
    ∀ (fuel : Nat) (w : Bool) (s : Str),
      hasTokAux pat fuel w s = false → replTokAux pat rep fuel w s = s := by
  intro fuel
  induction fuel with
  | zero =>
    intro w s h
    rfl
  | succ n ih =>
    intro w s h
    cases s with
    | nil => rfl
    | cons c cs =>
      unfold hasTokAux at h
      unfold replTokAux
      by_cases hm : matchAt pat w (c :: cs) = true
      · rw [if_pos hm] at h
        exact absurd h (by simp)
      · rw [if_neg hm] at h
        rw [if_neg hm, ih (isWordChar c) cs h]

theorem replTok_eq_self (pat rep s : Str) (h : hasTok pat s = false) :
    replTok pat rep s = s :=
  replTokAux_eq_self pat rep s.length false s h

theorem numberHash_eq_self {s : Str} (h : startsWithNumberTok s = false) :
    numberHash s = s := by
  unfold numberHash
  rw [h]
  simp

/-- Counterexample to C2: normalization is not idempotent.  A first pass
turns the word `and` into `&` (the `&` is introduced after the
punctuation strip), and a second pass strips that `&` away:
`normalize "a and b" = "a & b"` but `normalize "a & b" = "a  b"`. -/
theorem normalize_not_idempotent :
    normalize (normalize strAandB) ≠ normalize strAandB := by decide

/-- C2 as amended: normalization is idempotent on every string whose
normalized form is left unchanged by each pipeline step — it is already
lowercase-stable and strip-stable (so contains no `&`), does not begin
with the token `number`, contains none of the rewritten tokens `and`,
`vi`, `online`, `edition`, `remastered`, `definitive`, no phrase
`game of the year`, and is trimmed.  (The counterexample shows the
general statement fails once the normalized form contains `&`.) -/
theorem normalize_idempotent_when_stable (x : Str)
    (hLower : lowerStr (normalize x) = normalize x)
    (hNum : startsWithNumberTok (normalize x) = false)
    (hStrip : (normalize x).filter isKeptChar = normalize x)
    (hAnd : hasTok patAnd (normalize x) = false)
    (hVi : hasTok patVi (normalize x) = false)
    (hOnline : hasTok patOnline (normalize x) = false)
    (hEdition : hasTok patEdition (normalize x) = false)
    (hRem : hasTok patRemastered (normalize x) = false)
    (hDef : hasTok patDefinitive (normalize x) = false)
    (hGoty : hasTok patGoty (normalize x) = false)
    (hTrim : trimStr (normalize x) = normalize x) :
    normalize (normalize x) = normalize x := by
  set y := normalize x with hy
  unfold normalize
  simp only [nfc]
  rw [hLower, numberHash_eq_self hNum, hStrip,
    replTok_eq_self patAnd ['&'] y hAnd,
    replTok_eq_self patVi ['6'] y hVi,
    replTok_eq_self patOnline [] y hOnline,
    replTok_eq_self patEdition [] y hEdition,
    replTok_eq_self patRemastered [] y hRem,
    replTok_eq_self patDefinitive [] y hDef,
    replTok_eq_self patGoty [] y hGoty,
    hTrim]

/-- Witness for the amended C2 at the name `halo 3`, whose normalized
form `halo 3` is stable under every pipeline step. -/
theorem normalize_idempotent_when_stable_witness :
    normalize (normalize strHalo3) = normalize strHalo3 :=
  normalize_idempotent_when_stable strHalo3 (by decide) (by decide) (by decide)
    (by decide) (by decide) (by decide) (by decide) (by decide) (by decide)
    (by decide) (by decide)

/-! Lemmas for the comparator loop. -/

theorem find?_eq_of_pointwise {α : Type} (p q : α → Bool) (l : List α)
    (h : ∀ x, p x = q x) : l.find? p = l.find? q := by
  induction l with
  | nil => rfl
  | cons a l ih => rw [List.find?_cons, List.find?_cons, h a, ih]

/-- Similarity only reads the normalized form of its first argument. -/
theorem isSimilarTo_congr_left {a a' : Str} (b : Str) (t : ℚ)
    (h : normalize a = normalize a') : isSimilarTo a b t = isSimilarTo a' b t := by
  unfold isSimilarTo
  rw [h]

/-- The outer loop of `compareWishlists` sends every first-side game
with some similar second-side game to `inBoth`, and every other
first-side game to `onlyInFirst`. -/
theorem cmpFold_characterization (t : ℚ) (second : List Game) :
    ∀ (l : List Game) (acc : CmpAcc),
      (l.foldl (cmpStep t second) acc).inBoth =
        acc.inBoth ++ l.filter (fun g => (findSimilar t second g).isSome) ∧
      (l.foldl (cmpStep t second) acc).onlyInFirst =
        acc.onlyInFirst ++ l.filter (fun g => !(findSimilar t second g).isSome) := by
  intro l
  induction l with
  | nil =>
    intro acc
    simp
  | cons g l ih =>
    intro acc
    rw [List.foldl_cons]
    obtain ⟨ih1, ih2⟩ := ih (cmpStep t second acc g)
    constructor
    · rw [ih1]
      cases hf : findSimilar t second g with
      | some h => simp [cmpStep, hf, List.filter_cons]
      | none => simp [cmpStep, hf, List.filter_cons]
    · rw [ih2]
      cases hf : findSimilar t second g with
      | some h => simp [cmpStep, hf, List.filter_cons]
      | none => simp [cmpStep, hf, List.filter_cons]

/-- Counterexample to C1: with threshold `1/5`, the single first-side
game `abcde` greedily matches the near-name `abcdx`, so the exact
duplicate `abcde` on the second side is never consumed: the normalized
name `abcde` ends up in `both` and in `onlyInSecond` at once, violating
pairwise disjointness by normalized name. -/
theorem compareWishlists_not_disjoint :
    normalize strAbcde ∈
      (compareWishlists cxFirst cxSecond qFifth).1.map (fun g => normalize g.name) ∧
    normalize strAbcde ∈
      (compareWishlists cxFirst cxSecond qFifth).2.2.map (fun g => normalize g.name) := by
  decide

/-- C1 as amended: `both` and `onlyInFirst` partition the first-side
input — their lengths sum to the first side's length, they are disjoint
by normalized name, and every first-side game lands in one of them —
and `onlyInSecond` only holds second-side games.  Disjointness of
`both`/`onlyInFirst` against `onlyInSecond` by normalized name does not
hold (see the counterexample), because the inner loop never skips
already-consumed second-side games. -/
theorem compareWishlists_partition (first second : List Game) (t : ℚ) :
    ((compareWishlists first second t).1.length +
      (compareWishlists first second t).2.1.length = first.length) ∧
    (∀ g ∈ (compareWishlists first second t).1,
      ∀ h ∈ (compareWishlists first second t).2.1,
        normalize g.name ≠ normalize h.name) ∧
    (∀ g ∈ first,
      g ∈ (compareWishlists first second t).1 ∨
        g ∈ (compareWishlists first second t).2.1) ∧
    (∀ h ∈ (compareWishlists first second t).2.2, h ∈ second) := by
  have hchar := cmpFold_characterization t second first ⟨[], [], []⟩
  have h1 : (compareWishlists first second t).1 =
      first.filter (fun g => (findSimilar t second g).isSome) := by
    unfold compareWishlists
    dsimp only
    rw [hchar.1]
    simp
  have h2 : (compareWishlists first second t).2.1 =
      first.filter (fun g => !(findSimilar t second g).isSome) := by
    unfold compareWishlists
    dsimp only
    rw [hchar.2]
    simp
  refine ⟨?_, ?_, ?_, ?_⟩
  · rw [h1, h2, ← List.length_append]
    exact (List.filter_append_perm _ first).length_eq
  · intro g hg h hh hne
    rw [h1] at hg
    rw [h2] at hh
    have hpg : (findSimilar t second g).isSome = true := (List.mem_filter.mp hg).2
    have hph : (!(findSimilar t second h).isSome) = true := (List.mem_filter.mp hh).2
    have heq : findSimilar t second g = findSimilar t second h := by
      unfold findSimilar
      exact find?_eq_of_pointwise _ _ second
        (fun s => isSimilarTo_congr_left s.name t hne)
    rw [heq] at hpg
    rw [hpg] at hph
    exact absurd hph (by simp)
  · intro g hg
    cases hp : (findSimilar t second g).isSome with
    | true =>
      exact Or.inl (by rw [h1]; exact List.mem_filter.mpr ⟨hg, hp⟩)
    | false =>
      exact Or.inr (by rw [h2]; exact List.mem_filter.mpr ⟨hg, by rw [hp]; rfl⟩)
  · intro h hh
    unfold compareWishlists at hh
    dsimp only at hh
    exact (List.mem_filter.mp hh).1

/-- Witness for the amended C1: the single first-side game of the
fixture lands in `both` or `onlyInFirst`. -/
theorem compareWishlists_partition_witness :
    ({ appId := 1, name := strAbcde } : Game) ∈
      (compareWishlists cxFirst cxSecond qFifth).1 ∨
    ({ appId := 1, name := strAbcde } : Game) ∈
      (compareWishlists cxFirst cxSecond qFifth).2.1 :=
  (compareWishlists_partition cxFirst cxSecond qFifth).2.2.1
    { appId := 1, name := strAbcde } (by decide)

/-! Lemmas about the JS `Map` model. -/

theorem find?_append {α : Type} (p : α → Bool) (l1 l2 : List α) :
    (l1 ++ l2).find? p =
      match l1.find? p with
      | some x => some x
      | none => l2.find? p := by
  induction l1 with
  | nil => rfl
  | cons a l ih =>
    rw [List.cons_append]
    cases hpa : p a with
    | true => rw [List.find?_cons_of_pos _ hpa, List.find?_cons_of_pos _ hpa]
    | false => rw [List.find?_cons_of_neg _ (by simp [hpa]),
        List.find?_cons_of_neg _ (by simp [hpa]), ih]

theorem lastWith_cons {K V : Type} [DecidableEq K] (keyf : V → K) (v : V)
    (l : List V) (k : K) :
    lastWith keyf (v :: l) k =
      match lastWith keyf l k with
      | some w => some w
      | none => if keyf v = k then some v else none := by
  unfold lastWith
  rw [List.reverse_cons, find?_append]
  cases (l.reverse.find? (fun v => decide (keyf v = k))) with
  | some w => rfl
  | none =>
    by_cases h : keyf v = k
    · rw [List.find?_cons_of_pos _ (by simp [h]), if_pos h]
    · rw [List.find?_cons_of_neg _ (by simp [h]), if_neg h]
      rfl

theorem jsMapInsert_keys {K V : Type} [DecidableEq K] (m : List (K × V)) (k : K)
    (v : V) :
    (jsMapInsert m k v).map Prod.fst =
      if k ∈ m.map Prod.fst then m.map Prod.fst else m.map Prod.fst ++ [k] := by
  unfold jsMapInsert
  by_cases h : m.any (fun p => decide (p.1 = k)) = true
  · rw [if_pos h]
    obtain ⟨p, hp, hdec⟩ := List.any_eq_true.mp h
    have hk : k ∈ m.map Prod.fst :=
      List.mem_map.mpr ⟨p, hp, of_decide_eq_true hdec⟩
    rw [if_pos hk, List.map_map]
    refine List.map_congr_left ?_
    intro q hq
    by_cases hqk : q.1 = k
    · simp [hqk]
    · simp [hqk]
  · rw [if_neg h]
    have hk : k ∉ m.map Prod.fst := by
      intro hmem
      obtain ⟨p, hp, hpk⟩ := List.mem_map.mp hmem
      exact h (List.any_eq_true.mpr ⟨p, hp, decide_eq_true hpk⟩)
    rw [if_neg hk, List.map_append]
    rfl

theorem jsMapInsert_mem {K V : Type} [DecidableEq K] {m : List (K × V)} {k : K}
    {v : V} {p : K × V} (h : p ∈ jsMapInsert m k v) :
    p = (k, v) ∨ (p ∈ m ∧ p.1 ≠ k) := by
  unfold jsMapInsert at h
  by_cases ha : m.any (fun q => decide (q.1 = k)) = true
  · rw [if_pos ha] at h
    obtain ⟨q, hq, hqe⟩ := List.mem_map.mp h
    by_cases hqk : q.1 = k
    · rw [if_pos hqk] at hqe
      exact Or.inl hqe.symm
    · rw [if_neg hqk] at hqe
      exact Or.inr ⟨hqe ▸ hq, hqe ▸ hqk⟩
  · rw [if_neg ha] at h
    rcases List.mem_append.mp h with hm | he
    · refine Or.inr ⟨hm, ?_⟩
      intro hk
      exact ha (List.any_eq_true.mpr ⟨p, hm, decide_eq_true hk⟩)
    · exact Or.inl (List.mem_singleton.mp he)

theorem jsfold_mem {K V : Type} [DecidableEq K] (keyf : V → K) :
    ∀ (l : List V) (m : List (K × V)),
      (∀ q ∈ m, q.1 = keyf q.2) →
      ∀ p ∈ l.foldl (fun m v => jsMapInsert m (keyf v) v) m,
        p.1 = keyf p.2 ∧
        (match lastWith keyf l p.1 with
         | some w => p.2 = w
         | none => p ∈ m) := by
  intro l
  induction l with
  | nil =>
    intro m hm p hp
    exact ⟨hm p hp, hp⟩
  | cons v l ih =>
    intro m hm p hp
    rw [List.foldl_cons] at hp
    have hm' : ∀ q ∈ jsMapInsert m (keyf v) v, q.1 = keyf q.2 := by
      intro q hq
      rcases jsMapInsert_mem hq with he | ⟨hqm, _⟩
      · rw [he]
      · exact hm q hqm
    obtain ⟨hk, hmatch⟩ := ih (jsMapInsert m (keyf v) v) hm' p hp
    refine ⟨hk, ?_⟩
    rw [lastWith_cons]
    cases hlw : lastWith keyf l p.1 with
    | some w =>
      rw [hlw] at hmatch
      exact hmatch
    | none =>
      rw [hlw] at hmatch
      rcases jsMapInsert_mem hmatch with he | ⟨hpm, hpk⟩
      · rw [he]
        simp
      · rw [if_neg (fun hvk => hpk (hvk.symm))]
        exact hpm

theorem jsfold_keys_nodup {K V : Type} [DecidableEq K] (keyf : V → K) :
    ∀ (l : List V) (m : List (K × V)),
      (m.map Prod.fst).Nodup →
      ((l.foldl (fun m v => jsMapInsert m (keyf v) v) m).map Prod.fst).Nodup := by
  intro l
  induction l with
  | nil =>
    intro m hm
    exact hm
  | cons v l ih =>
    intro m hm
    rw [List.foldl_cons]
    refine ih (jsMapInsert m (keyf v) v) ?_
    rw [jsMapInsert_keys]
    by_cases hk : keyf v ∈ m.map Prod.fst
    · rw [if_pos hk]
      exact hm
    · rw [if_neg hk]
      rw [← List.concat_eq_append]
      exact List.Nodup.concat hk hm

theorem jsfold_keys_mem {K V : Type} [DecidableEq K] (keyf : V → K) :
    ∀ (l : List V) (m : List (K × V)) (k : K),
      (k ∈ (l.foldl (fun m v => jsMapInsert m (keyf v) v) m).map Prod.fst ↔
        k ∈ m.map Prod.fst ∨ ∃ v ∈ l, keyf v = k) := by
  intro l
  induction l with
  | nil =>
    intro m k
    simp
  | cons v l ih =>
    intro m k
    rw [List.foldl_cons, ih (jsMapInsert m (keyf v) v) k, jsMapInsert_keys]
    by_cases hk : keyf v ∈ m.map Prod.fst
    · rw [if_pos hk]
      constructor
      · intro h
        rcases h with h | h
        · exact Or.inl h
        · exact Or.inr (by simp [h])
      · intro h
        rcases h with h | ⟨w, hw, hwk⟩
        · exact Or.inl h
        · rcases List.mem_cons.mp hw with he | hl
          · exact Or.inl (by rw [← hwk, he]; exact hk)
          · exact Or.inr ⟨w, hl, hwk⟩
    · rw [if_neg hk]
      constructor
      · intro h
        rcases h with h | h
        · rcases List.mem_append.mp h with h | h
          · exact Or.inl h
          · exact Or.inr ⟨v, List.mem_cons_self v l, (List.mem_singleton.mp h).symm⟩
        · exact Or.inr (by simp [h])
      · intro h
        rcases h with h | ⟨w, hw, hwk⟩
        · exact Or.inl (List.mem_append.mpr (Or.inl h))
        · rcases List.mem_cons.mp hw with he | hl
          · exact Or.inl (List.mem_append.mpr (Or.inr (by
              rw [← hwk, he]
              exact List.mem_singleton.mpr rfl)))
          · exact Or.inr ⟨w, hl, hwk⟩

/-- Counterexample to C4: `removeDuplicates` keys by `appId`, not by
normalized name, and a JS `Map` keeps the last value written at a key —
two games with distinct normalized names but the shared `appId 0`
collapse to the later one instead of both surviving as earliest
occurrences of their names. -/
theorem removeDuplicates_not_by_name :
    normalize strAaa ≠ normalize strBbb ∧
    wcDup.removeDuplicates.inBoth = [{ appId := 0, name := strBbb }] := by
  decide

/-- Per-list behaviour of the `appId`-keyed JS `Map` re-keying. -/
theorem dedupByAppId_spec (L : List Game) :
    ((dedupByAppId L).map (fun g => g.appId)).Nodup ∧
    (∀ g ∈ dedupByAppId L, lastWith (fun g => g.appId) L g.appId = some g) ∧
    (∀ g ∈ L, ∃ g' ∈ dedupByAppId L, g'.appId = g.appId) := by
  have hfold : jsMapOfList (fun g : Game => g.appId) L =
      L.foldl (fun m v => jsMapInsert m ((fun g : Game => g.appId) v) v) [] := rfl
  have hbase : ∀ q ∈ ([] : List (Nat × Game)), q.1 = (fun g : Game => g.appId) q.2 := by
    intro q hq
    cases hq
  refine ⟨?_, ?_, ?_⟩
  · have hmap : (dedupByAppId L).map (fun g => g.appId) =
        (jsMapOfList (fun g : Game => g.appId) L).map Prod.fst := by
      unfold dedupByAppId
      rw [List.map_map]
      refine List.map_congr_left ?_
      intro p hp
      rw [hfold] at hp
      exact ((jsfold_mem (fun g : Game => g.appId) L [] hbase p hp).1).symm
    rw [hmap, hfold]
    exact jsfold_keys_nodup (fun g : Game => g.appId) L [] List.nodup_nil
  · intro g hg
    obtain ⟨p, hp, hpe⟩ := List.mem_map.mp hg
    rw [hfold] at hp
    obtain ⟨hk, hmatch⟩ := jsfold_mem (fun g : Game => g.appId) L [] hbase p hp
    rw [← hpe, ← hk]
    cases hlw : lastWith (fun g : Game => g.appId) L p.1 with
    | some w =>
      rw [hlw] at hmatch
      rw [hmatch]
    | none =>
      rw [hlw] at hmatch
      cases hmatch
  · intro g hg
    have hk : g.appId ∈ (jsMapOfList (fun g : Game => g.appId) L).map Prod.fst := by
      rw [hfold]
      exact (jsfold_keys_mem (fun g : Game => g.appId) L [] g.appId).mpr
        (Or.inr ⟨g, hg, rfl⟩)
    obtain ⟨p, hp, hpe⟩ := List.mem_map.mp hk
    refine ⟨p.2, List.mem_map.mpr ⟨p, hp, rfl⟩, ?_⟩
    rw [hfold] at hp
    rw [← (jsfold_mem (fun g : Game => g.appId) L [] hbase p hp).1, hpe]

/-- C4 as amended: `removeDuplicates` re-keys each of the three lists by
`appId` (not by normalized name): per list, the surviving `appId`s are
pairwise distinct, every original `appId` survives, each survivor is
the last original game bearing its `appId` (a JS `Map` keeps the last
write), and the platform labels are unchanged. -/
theorem removeDuplicates_rekeys_by_appId (w : WishlistComparison) :
    (w.removeDuplicates.firstPlatform = w.firstPlatform ∧
      w.removeDuplicates.secondPlatform = w.secondPlatform) ∧
    ((w.removeDuplicates.inBoth.map (fun g => g.appId)).Nodup ∧
      (∀ g ∈ w.removeDuplicates.inBoth,
        lastWith (fun g => g.appId) w.inBoth g.appId = some g) ∧
      (∀ g ∈ w.inBoth, ∃ g' ∈ w.removeDuplicates.inBoth, g'.appId = g.appId)) ∧
    ((w.removeDuplicates.onlyInFirst.map (fun g => g.appId)).Nodup ∧
      (∀ g ∈ w.removeDuplicates.onlyInFirst,
        lastWith (fun g => g.appId) w.onlyInFirst g.appId = some g) ∧
      (∀ g ∈ w.onlyInFirst, ∃ g' ∈ w.removeDuplicates.onlyInFirst, g'.appId = g.appId)) ∧
    ((w.removeDuplicates.onlyInSecond.map (fun g => g.appId)).Nodup ∧
      (∀ g ∈ w.removeDuplicates.onlyInSecond,
        lastWith (fun g => g.appId) w.onlyInSecond g.appId = some g) ∧
      (∀ g ∈ w.onlyInSecond, ∃ g' ∈ w.removeDuplicates.onlyInSecond, g'.appId = g.appId)) :=
  ⟨⟨rfl, rfl⟩, dedupByAppId_spec w.inBoth, dedupByAppId_spec w.onlyInFirst,
    dedupByAppId_spec w.onlyInSecond⟩

/-- Witness for the amended C4: in the fixture, the survivor of the two
`appId 0` games is the last one. -/
theorem removeDuplicates_rekeys_by_appId_witness :
    lastWith (fun g : Game => g.appId) wcDup.inBoth 0 =
      some { appId := 0, name := strBbb } :=
  (removeDuplicates_rekeys_by_appId wcDup).2.1.2.1
    { appId := 0, name := strBbb } (by decide)

/-- Counterexample to C5: an entry with a name and no id does not
exclude a game whose `GameName`-normalized name matches but whose
lowercased trimmed name differs — the exclusion collection keys on
`toLowerCase().trim()`, not on the normalization. -/
theorem excluded_name_not_normalized :
    normalize strHaloBang = normalize strHalo ∧
    isExcluded [exHaloBang] strHalo (some 7) = false ∧
    filterGames [exHaloBang] [gHalo7] = [gHalo7] := by
  decide

/-- C5 as amended: an exclusion entry with a name and no truthy id
excludes every game whose name equals the entry's name after
lowercasing and trimming (the collection's own key normalization),
regardless of either side's id; `filterGames` then removes the game. -/
theorem nameOnly_entry_excludes_by_keyNorm
    (entries : List ExcludedGame) (e : ExcludedGame) (g : Game)
    (he : e ∈ entries) (hid : optTruthy e.appId = none)
    (hname : keyNorm e.gameName = keyNorm g.name) :
    isExcluded entries g.name (some g.appId) = true ∧
    ∀ gs : List Game, g ∉ filterGames entries gs := by
  have hkey : getKey e.gameName e.appId = keyNorm g.name := by
    rw [← hname]
    unfold getKey
    cases ha : e.appId with
    | none => rfl
    | some k =>
      cases k with
      | zero => rfl
      | succ n =>
        rw [ha] at hid
        exact absurd hid (by simp [optTruthy])
  have hmem : keyNorm g.name ∈ (exMap entries).map Prod.fst := by
    have hfold : exMap entries =
        entries.foldl
          (fun m v => jsMapInsert m ((fun e : ExcludedGame => getKey e.gameName e.appId) v) v)
          [] := rfl
    rw [hfold]
    exact (jsfold_keys_mem (fun e : ExcludedGame => getKey e.gameName e.appId) entries []
      (keyNorm g.name)).mpr (Or.inr ⟨e, he, hkey⟩)
  have hany : (exMap entries).any
      (fun p => decide (p.1 = getKey g.name none)) = true := by
    obtain ⟨p, hp, hpe⟩ := List.mem_map.mp hmem
    refine List.any_eq_true.mpr ⟨p, hp, decide_eq_true ?_⟩
    rw [hpe]
    rfl
  have hexc : isExcluded entries g.name (some g.appId) = true := by
    unfold isExcluded
    dsimp only
    by_cases h1 : (exMap entries).any
        (fun p => decide (p.1 = getKey g.name (optTruthy (some g.appId)))) = true
    · rw [if_pos h1]
    · rw [if_neg h1, if_pos hany]
  refine ⟨hexc, ?_⟩
  intro gs hg
  have := (List.mem_filter.mp hg).2
  rw [hexc] at this
  exact absurd this (by simp)

/-- Witness for the amended C5 at a lowercase entry and a capitalized
game name. -/
theorem nameOnly_entry_excludes_by_keyNorm_witness :
    isExcluded [{ gameName := strHaloLower, appId := none, reason := [] }]
      strHalo (some 7) = true :=
  (nameOnly_entry_excludes_by_keyNorm
    [{ gameName := strHaloLower, appId := none, reason := [] }]
    { gameName := strHaloLower, appId := none, reason := [] }
    { appId := 7, name := strHalo } (by decide) rfl (by decide)).1

end BLSP
